import Mathlib

/-!
Verification of the Sephora-Scraper repository (src/product_scr.py and
src/sephora_scr.py) against its natural-language specification.

The two Python scripts are shallowly embedded here:

* The Detail Extractor (`product_scr.py`, function `main`) is embedded as a
  fold over the input items.  The browser/BeautifulSoup behaviour for one
  product URL is abstracted by a `Fetch` value: either an exception is raised
  during navigation / waiting / parsing (before the page text is available),
  or a rendered page (a small DOM tree) is obtained, together with a flag
  saying whether the field-extraction code afterwards raises.  The
  BeautifulSoup queries used by the script (`find` by tag and attribute,
  `find` by string predicate, `find_all`, `get_text`) are modelled as
  recursive functions over the DOM tree.

* The Link Collector (`sephora_scr.py`, function
  `scrape_all_paginated_products` and the module-level category loop) is
  embedded with the browser abstracted by an oracle giving, for every page
  number and every DOM read performed by the incremental-scroll loop, the
  list of product blocks currently present.  The scroll loop itself is
  embedded as a step function on an explicit state (previous count, counter
  of consecutive unchanged reads, number of reads), run with fuel: the Python
  loop does not terminate on a never-stabilising page, which the embedding
  reflects by returning `none` when the fuel is exhausted.
-/

/-! ### String helpers

Python's substring test `needle in hay` over the characters of the strings. -/

/-- `startsList hay needle` is true when `needle` is a prefix of `hay`
(character lists). -/
def startsList : List Char → List Char → Bool
  | _, [] => true
  | [], _ :: _ => false
  | a :: as, b :: bs => a = b && startsList as bs

/-- `containsSub hay needle` is true when `needle` occurs contiguously inside
`hay`; for a nonempty `needle` this is Python's `needle in hay`. -/
def containsSub : List Char → List Char → Bool
  | [], needle => startsList [] needle
  | a :: t, needle => startsList (a :: t) needle || containsSub t needle

/-- Python's `needle in hay` substring test on strings. -/
def strContains (hay needle : String) : Bool :=
  containsSub hay.toList needle.toList

/-- Python's `str.strip()`: leading and trailing whitespace removed
(same predicate as Lean's `String.trim`, stated over the character list so
that it evaluates by kernel reduction). -/
def strTrim (s : String) : String :=
  ⟨((s.toList.dropWhile Char.isWhitespace).reverse.dropWhile
      Char.isWhitespace).reverse⟩

/-! ### DOM model

A rendered HTML page as seen by BeautifulSoup: a tree of elements (tag name,
attribute list, children) and text nodes (NavigableStrings). -/

/-- A parsed DOM tree (`BeautifulSoup(driver.page_source, "html.parser")`). -/
inductive Dom where
  | text : String → Dom
  | elem : String → List (String × String) → List Dom → Dom

/-- First value of attribute `key`, as BeautifulSoup reads an attribute dict. -/
def lookupAttr (attrs : List (String × String)) (key : String) : Option String :=
  (attrs.find? (fun p => p.1 == key)).map Prod.snd

mutual

/-- All text nodes of a DOM tree, in document order (BeautifulSoup's
`.strings`). -/
def textNodes : Dom → List String
  | .text s => [s]
  | .elem _ _ cs => textNodesL cs

/-- All text nodes of a forest, in document order. -/
def textNodesL : List Dom → List String
  | [] => []
  | d :: ds => textNodes d ++ textNodesL ds

end

mutual

/-- `soup.find(string=p)` made boolean: is there a text node satisfying `p`? -/
def anyText (p : String → Bool) : Dom → Bool
  | .text s => p s
  | .elem _ _ cs => anyTextL p cs

/-- `anyText` over a forest. -/
def anyTextL (p : String → Bool) : List Dom → Bool
  | [] => false
  | d :: ds => anyText p d || anyTextL p ds

end

mutual

/-- `soup.find(tag, {key: val})`: the first element in document (pre-order)
order whose tag is `tag` and whose attribute `key` equals `val`. -/
def findTagAttr (tag key val : String) : Dom → Option Dom
  | .text _ => none
  | .elem t attrs cs =>
    if t = tag ∧ lookupAttr attrs key = some val then some (.elem t attrs cs)
    else findTagAttrL tag key val cs

/-- `findTagAttr` over a forest: first match scanning subtrees left to right. -/
def findTagAttrL (tag key val : String) : List Dom → Option Dom
  | [] => none
  | d :: ds =>
    match findTagAttr tag key val d with
    | some r => some r
    | none => findTagAttrL tag key val ds

end

mutual

/-- `node.find_all(tag)` restricted to a subtree root: the root itself (when
it is an element with tag `tag`) followed by all matching descendants in
document order. -/
def findAllTag (tag : String) : Dom → List Dom
  | .text _ => []
  | .elem t attrs cs =>
    (if t = tag then [Dom.elem t attrs cs] else []) ++ findAllTagL tag cs

/-- `findAllTag` over a forest. -/
def findAllTagL (tag : String) : List Dom → List Dom
  | [] => []
  | d :: ds => findAllTag tag d ++ findAllTagL tag ds

end

/-- `node.get_text()` (BeautifulSoup `.text`): concatenation of all text
nodes, no separator. -/
def getText (d : Dom) : String :=
  String.join (textNodes d)

/-- `node.get_text(strip=True)`: each text node stripped, concatenated.
(Skipping of empty stripped strings does not change the result under the
empty separator, so plain concatenation of the trimmed pieces is faithful.) -/
def getTextStrip (d : Dom) : String :=
  String.join ((textNodes d).map strTrim)

/-! ### Detail Extractor (`product_scr.py`, `main`, lines 53-130) -/

/-- The unavailability marker searched for at `product_scr.py:84`. -/
def unavailableMarker : String := "Sorry, this product is not available"

/-- `soup.find(string=lambda text: text and "Sorry, this product is not
available" in text)` made boolean (`product_scr.py:83-85`). -/
def markerFound (d : Dom) : Bool :=
  anyText (fun s => (s != "") && strContains s unavailableMarker) d

/-- A successful-output row (`product_scr.py:109-117`): keys `Category`,
`URL`, `Brand`, `Product Name`, `Ingredients`; the last three are `None` when
the corresponding element was not found. -/
structure ProductRecord where
  category : String
  url : String
  brand : Option String
  name : Option String
  ingredients : Option String
deriving DecidableEq

/-- A skipped-output row (`product_scr.py:87`): keys `Category`, `URL`. -/
structure SkipRecord where
  category : String
  url : String
deriving DecidableEq

/-- Field extraction for one rendered page (`product_scr.py:91-117`):
name from the first `span[data-at=product_name]`, brand from the first
`a[data-at=brand_name]`, ingredients from the non-empty stripped texts of the
`div`s nested inside `div#ingredients`, space-joined; each field is `none`
when its source element is missing. -/
def extract (category url : String) (d : Dom) : ProductRecord :=
  let name := (findTagAttr "span" "data-at" "product_name" d).map
    (fun t => strTrim (getText t))
  let brand := (findTagAttr "a" "data-at" "brand_name" d).map
    (fun t => strTrim (getText t))
  let ingredients :=
    match findTagAttr "div" "id" "ingredients" d with
    | none => none
    | some idiv =>
      match idiv with
      | .text _ => none
      | .elem _ _ cs =>
        let texts := ((findAllTagL "div" cs).map getTextStrip).filter
          (fun s => s != "")
        if texts.isEmpty then none else some (String.intercalate " " texts)
  ⟨category, url, brand, name, ingredients⟩

/-- What the browser/parser does for one product URL.

`raiseEarly` models any exception raised during navigation, waiting or
parsing (`product_scr.py:68-80`), before the unavailability check.
`page d ex` models a successfully parsed page `d`; `ex = true` means the
field-extraction code of lines 91-117 raises an exception. Both kinds are
caught by the per-item handler at lines 119-122.  When the marker is found
the item is recorded as skipped and `continue` runs (line 88), so the
extraction code — and hence `ex` — is never reached. -/
inductive Fetch where
  | raiseEarly : Fetch
  | page : Dom → Bool → Fetch

/-- One iteration of the per-URL loop: the item's category, URL, and the
behaviour of the browser on it. -/
structure ItemRun where
  category : String
  url : String
  fetch : Fetch

/-- The two in-memory result lists of `main` (`product_scr.py:60-61`). -/
structure DState where
  products : List ProductRecord
  skipped : List SkipRecord
deriving DecidableEq

/-- Body of the per-URL loop (`product_scr.py:66-122`): exceptions caught at
the item boundary leave the state unchanged; a marker match appends to the
skipped list and skips extraction; otherwise the extracted record is appended
to the product list. -/
def processItem (st : DState) (r : ItemRun) : DState :=
  match r.fetch with
  | .raiseEarly => st
  | .page d ex =>
    if markerFound d then ⟨st.products, st.skipped ++ [⟨r.category, r.url⟩]⟩
    else if ex then st
    else ⟨st.products ++ [extract r.category r.url d], st.skipped⟩

/-- The per-URL loop (`product_scr.py:65-122`) from a given state. -/
def runItems (rs : List ItemRun) (st : DState) : DState :=
  rs.foldl processItem st

/-- The whole loop of `main`, starting from empty result lists. -/
def mainRun (rs : List ItemRun) : DState :=
  runItems rs ⟨[], []⟩

/-- The skipped-output row an item contributes, if any. -/
def itemOutcomeSkip (r : ItemRun) : Option SkipRecord :=
  match r.fetch with
  | .raiseEarly => none
  | .page d _ => if markerFound d then some ⟨r.category, r.url⟩ else none

/-- The successful-output row an item contributes, if any. -/
def itemOutcomeProd (r : ItemRun) : Option ProductRecord :=
  match r.fetch with
  | .raiseEarly => none
  | .page d ex =>
    if markerFound d then none
    else if ex then none
    else some (extract r.category r.url d)

/-- The item's processing raises an exception that reaches the per-item
handler: either before the page is parsed, or during field extraction (which
only runs when the marker was not found). -/
def itemRaises (r : ItemRun) : Prop :=
  match r.fetch with
  | .raiseEarly => True
  | .page d ex => ex = true ∧ markerFound d = false

/-! ### Detail Extractor input (`product_scr.py:46-49`)

`pd.read_csv` followed by `dropna(subset=["URL"])`: an empty URL cell is read
by pandas as NaN and the row is dropped before the loop starts.  A row is
modelled with an optional URL, `none` standing for the missing/empty cell. -/

/-- One row of `data/product_urls.csv`: `url = none` models an empty URL
cell (pandas NaN). -/
structure InRow where
  category : String
  url : Option String

/-- `data.dropna(subset=["URL"])` followed by reading the `URL` and
`category` columns and zipping them (`product_scr.py:47-49`, `65`): the
(category, URL) pairs the loop iterates over, in file order. -/
def inputItems (rows : List InRow) : List (String × String) :=
  rows.filterMap (fun r => r.url.map (fun u => (r.category, u)))

/-- The loop items built from the (category, URL) pairs starting at loop
position `i`, the browser behaviour indexed by position. -/
def attachRunsFrom (fetch : Nat → Fetch) :
    Nat → List (String × String) → List ItemRun
  | _, [] => []
  | i, (c, u) :: rest => ⟨c, u, fetch i⟩ :: attachRunsFrom fetch (i + 1) rest

/-- The loop items of `main` for a given input file and browser behaviour:
one `ItemRun` per surviving row, the browser behaviour indexed by position. -/
def attachRuns (rows : List InRow) (fetch : Nat → Fetch) : List ItemRun :=
  attachRunsFrom fetch 0 (inputItems rows)

/-! ### Link Collector: incremental-scroll loop
(`sephora_scr.py:53-67`) -/

/-- State of the scroll loop: `previous` is `previous_count` (initially -1),
`attempts` is `scroll_attempts`, `reads` counts the `find_elements` calls
performed so far. -/
structure ScrollSt where
  previous : Int
  attempts : Nat
  reads : Nat
deriving DecidableEq

/-- Initial scroll-loop state (`sephora_scr.py:53-54`). -/
def scrollInit : ScrollSt := ⟨-1, 0, 0⟩

/-- One iteration of the `while scroll_attempts < 7` body
(`sephora_scr.py:56-67`): count the blocks, increment `scroll_attempts` when
the count is unchanged and reset it to zero otherwise, remember the count. -/
def scrollStep (counts : Nat → Nat) (s : ScrollSt) : ScrollSt :=
  let c : Int := (counts s.reads : Int)
  ⟨c, if c = s.previous then s.attempts + 1 else 0, s.reads + 1⟩

/-- The scroll loop run for at most `n` iterations: each iteration fires only
while `scroll_attempts < 7`; once 7 is reached the state is frozen. -/
def scrollRun (counts : Nat → Nat) : Nat → ScrollSt
  | 0 => scrollInit
  | n + 1 =>
    let s := scrollRun counts n
    if s.attempts < 7 then scrollStep counts s else s

/-- The value of `scroll_attempts` after `n` reads of the block count, as a
pure function of the count sequence: the length of the maximal run of
consecutive reads, ending at read `n - 1`, each equal to its predecessor (the
first read is compared against the sentinel -1 and never matches). -/
def streak (counts : Nat → Nat) : Nat → Nat
  | 0 => 0
  | 1 => 0
  | n + 2 => if counts (n + 1) = counts n then streak counts (n + 1) + 1 else 0

/-- The value of `previous_count` after `n` reads. -/
def prevAt (counts : Nat → Nat) : Nat → Int
  | 0 => -1
  | n + 1 => (counts n : Int)

/-! ### Link Collector: pagination and extraction
(`sephora_scr.py:24-81` and the category loop at lines 104-105) -/

/-- An anchor inside a product block; `href = none` models a missing `href`
attribute. -/
structure Anchor where
  href : Option String
deriving DecidableEq

/-- A product block (`div.css-11ifn8v.e15t7owz0`): the anchors it contains. -/
abbrev Block := List Anchor

/-- The browser as seen by one category scrape: `blocks page i` is the list
of product blocks present at the `i`-th `find_elements` call of the scroll
loop on listing page `page`. -/
abbrev Blocks := Nat → Nat → List Block

/-- The block-count sequence the scroll loop observes on `page`. -/
def pageCounts (blocks : Blocks) (page : Nat) : Nat → Nat :=
  fun i => (blocks page i).length

/-- A row of `final_df` (`sephora_scr.py:80`): columns `category`, `URL`. -/
structure LinkRow where
  category : String
  url : String
deriving DecidableEq

/-- The index of the last read of the scroll loop on `page`, when the loop
exits within `fuel` iterations; `none` models the Python loop never
terminating (the count never stays unchanged 7 times in a row).  The blocks
used for extraction (`sephora_scr.py:74`) are those of this last read. -/
def finalRead (blocks : Blocks) (fuel page : Nat) : Option Nat :=
  let s := scrollRun (pageCounts blocks page) fuel
  if s.attempts = 7 then some (s.reads - 1) else none

/-- The hrefs `find_elements(By.XPATH, ".//a[contains(@href, '/product/')]")`
followed by `get_attribute("href")` yields for one block
(`sephora_scr.py:75-77`): anchors that have an href containing `/product/`. -/
def blockHrefs (b : Block) : List String :=
  b.filterMap (fun a =>
    match a.href with
    | none => none
    | some h => if strContains h "/product/" then some h else none)

/-- `all_hrefs` and the growing `final_df` of one category scrape. -/
structure CatState where
  seen : List String
  rows : List LinkRow

/-- The per-href body (`sephora_scr.py:78-80`): if the href is truthy and not
yet in `all_hrefs`, add it to the set and append a (category, URL) row. -/
def addHref (category : String) (st : CatState) (h : String) : CatState :=
  if h ≠ "" ∧ h ∉ st.seen then ⟨h :: st.seen, st.rows ++ [⟨category, h⟩]⟩
  else st

/-- The extraction loops over blocks and anchors (`sephora_scr.py:74-80`). -/
def extractBlocks (category : String) (bs : List Block) (st : CatState) :
    CatState :=
  bs.foldl (fun st b => (blockHrefs b).foldl (addHref category) st) st

/-- The page loop of `scrape_all_paginated_products`
(`sephora_scr.py:45-80`), starting at page number `page` with `rem` page
numbers left before the cap: navigate, run the scroll loop (`none` when it
never stabilises within `fuel`), stop when the final block count is zero,
otherwise extract and continue with the next page.  Returns the final state
and the list of visited page numbers. -/
def scrapeFrom (blocks : Blocks) (category : String) (fuel : Nat) :
    Nat → Nat → CatState → List Nat → Option (CatState × List Nat)
  | _, 0, st, visited => some (st, visited)
  | page, rem + 1, st, visited =>
    match finalRead blocks fuel page with
    | none => none
    | some r =>
      let pb := blocks page r
      if pb.length = 0 then some (st, visited ++ [page])
      else
        scrapeFrom blocks category fuel (page + 1) rem
          (extractBlocks category pb st) (visited ++ [page])

/-- The default page cap of `scrape_all_paginated_products`
(`sephora_scr.py:24`, `max_pages=50`). -/
def defaultMaxPages : Nat := 50

/-- `scrape_all_paginated_products(driver, base_url, category, final_df,
max_pages)` (`sephora_scr.py:24-81`): `all_hrefs` starts empty, `final_df`
starts as the rows passed in, pages 1 up to `maxPages` are visited. -/
def scrapeAllPaginated (blocks : Blocks) (category : String)
    (finalRows : List LinkRow) (maxPages fuel : Nat) :
    Option (List LinkRow × List Nat) :=
  (scrapeFrom blocks category fuel 1 maxPages ⟨[], finalRows⟩ []).map
    (fun p => (p.1.rows, p.2))

/-- The category loop (`sephora_scr.py:104-105`): `final_df` threads through
the calls, one call per category; `blocksFor` gives the browser behaviour of
each category's listing pages. -/
def runCategories (blocksFor : String → Blocks) (maxPages fuel : Nat) :
    List String → List LinkRow → Option (List LinkRow)
  | [], rows => some rows
  | c :: cs, rows =>
    match scrapeAllPaginated (blocksFor c) c rows maxPages fuel with
    | none => none
    | some (rows1, _) => runCategories blocksFor maxPages fuel cs rows1

/-! ### Session release (claim about `driver.quit()`)

`product_scr.py` wraps its loop in `try ... finally: driver.quit()`
(lines 63-124); `sephora_scr.py` has no such protection: `driver.quit()`
(line 107) is a plain statement after the category loop (lines 104-105). -/

/-- Observable end state of a `product_scr.py` run. -/
structure ExtractorEnd where
  quitCalled : Bool
  wroteCsv : Bool
  raised : Bool
  result : DState
deriving DecidableEq

/-- The whole `main` of `product_scr.py` (lines 59-130).  `escape = some k`
models an exception at item `k` that no handler catches (the per-item handler
only catches `Exception`, and the loop machinery itself can fail): the
`finally` block still runs `driver.quit()`, the exception then propagates and
the CSV writes at lines 127-129 are skipped.  `escape = none` is a normal
run: the loop completes, `finally` runs `driver.quit()`, the CSVs are
written. -/
def extractorScript (rs : List ItemRun) (escape : Option Nat) : ExtractorEnd :=
  match escape with
  | none => ⟨true, true, false, mainRun rs⟩
  | some k => ⟨true, false, true, mainRun (rs.take k)⟩

/-- Observable end state of a `sephora_scr.py` run. -/
structure CollectorEnd where
  quitCalled : Bool
  wroteCsv : Bool
  raised : Bool

/-- The module-level tail of `sephora_scr.py` (lines 104-110): the category
loop, then `driver.quit()`, then `final_df.to_csv(...)` — with no `try`
around the loop.  `catStep c rows` is one call of
`scrape_all_paginated_products`; `.error` models an exception escaping it
(the Link Collector has no handler at all), which terminates the process
before `driver.quit()` is reached. -/
def collectorLoop
    (catStep : String → List LinkRow → Except Unit (List LinkRow)) :
    List String → List LinkRow → Except Unit (List LinkRow)
  | [], rows => .ok rows
  | c :: cs, rows =>
    match catStep c rows with
    | .error e => .error e
    | .ok rows1 => collectorLoop catStep cs rows1

/-- End state of a `sephora_scr.py` run: on an escaping exception neither
`driver.quit()` nor the CSV write executes. -/
def collectorScript
    (catStep : String → List LinkRow → Except Unit (List LinkRow))
    (cats : List String) : CollectorEnd :=
  match collectorLoop catStep cats [] with
  | .error _ => ⟨false, false, true⟩
  | .ok _ => ⟨true, true, false⟩

/-- Invariant of one category scrape: the rows appended beyond the incoming
`rows0` carry this category, have pairwise distinct URLs, and every appended
URL has been recorded in `all_hrefs`. -/
def CatInv (category : String) (rows0 : List LinkRow) (st : CatState) : Prop :=
  ∃ new, st.rows = rows0 ++ new ∧ (new.map LinkRow.url).Nodup ∧
    ∀ r ∈ new, r.category = category ∧ r.url ∈ st.seen

/-! ### Concrete fixtures used by the witness theorems -/

/-- A rendered page containing the unavailability marker and also a name
element. -/
def pageUnavailable : Dom :=
  .elem "html" [] [.elem "body" []
    [.text "Sorry, this product is not available",
     .elem "span" [("data-at", "product_name")] [.text "X"]]]

/-- A rendered page with a name element but no brand element and no
ingredients container. -/
def pagePartial : Dom :=
  .elem "html" [] [.elem "body" []
    [.elem "span" [("data-at", "product_name")] [.text " Nice Cream "]]]

/-- Three loop items: the middle one raises during navigation. -/
def itemsIso : List ItemRun :=
  [⟨"a", "u1", .page pagePartial false⟩,
   ⟨"b", "u2", .raiseEarly⟩,
   ⟨"c", "u3", .page pagePartial false⟩]

/-- A single item whose page carries the unavailability marker; its
extraction code would raise (flag `true`), which is never reached. -/
def itemsUnavailable : List ItemRun :=
  [⟨"face-mask", "u4", .page pageUnavailable true⟩]

/-- A single item with the partial page, no marker, no exception. -/
def itemsPartial : List ItemRun :=
  [⟨"face-mask", "u9", .page pagePartial false⟩]

/-- Concrete input rows for the empty-URL filtering witness: the second row
has an empty URL cell. -/
def rowsW : List InRow :=
  [⟨"cleanser", some "u1"⟩, ⟨"cleanser", none⟩, ⟨"face-mask", some "u2"⟩]

/-- Browser behaviour for the witness input: every fetch raises early. -/
def fetchW : Nat → Fetch := fun _ => Fetch.raiseEarly

/-- Listing-page behaviour for the collector witnesses: pages 1 and 2 each
show one block with one product anchor (the same URL), page 3 and later show
nothing; the display is stable across scroll reads. -/
def wBlocks : Blocks :=
  fun page _ => if page ≤ 2 then [[⟨some "s/product/1"⟩]] else []

/-! ### Helper lemmas: Detail Extractor loop -/

theorem runItems_append (xs ys : List ItemRun) (st : DState) :
    runItems (xs ++ ys) st = runItems ys (runItems xs st) := by
  simp [runItems, List.foldl_append]

theorem processItem_of_raises (st : DState) (r : ItemRun)
    (h : itemRaises r) : processItem st r = st := by
  rcases r with ⟨c, u, f⟩
  cases f with
  | raiseEarly => rfl
  | page d ex =>
    obtain ⟨hex, hm⟩ := h
    simp [processItem, hm, hex]

theorem runItems_products (rs : List ItemRun) (st : DState) :
    (runItems rs st).products = st.products ++ rs.filterMap itemOutcomeProd := by
  induction rs generalizing st with
  | nil => simp [runItems]
  | cons r rs ih =>
    have h1 : runItems (r :: rs) st = runItems rs (processItem st r) := rfl
    rw [h1, ih]
    rcases r with ⟨c, u, f⟩
    cases f with
    | raiseEarly => simp [processItem, itemOutcomeProd]
    | page d ex =>
      by_cases hm : markerFound d
      · simp [processItem, itemOutcomeProd, hm]
      · cases ex
        · simp [processItem, itemOutcomeProd, hm]
        · simp [processItem, itemOutcomeProd, hm]

theorem runItems_skipped (rs : List ItemRun) (st : DState) :
    (runItems rs st).skipped = st.skipped ++ rs.filterMap itemOutcomeSkip := by
  induction rs generalizing st with
  | nil => simp [runItems]
  | cons r rs ih =>
    have h1 : runItems (r :: rs) st = runItems rs (processItem st r) := rfl
    rw [h1, ih]
    rcases r with ⟨c, u, f⟩
    cases f with
    | raiseEarly => simp [processItem, itemOutcomeSkip]
    | page d ex =>
      by_cases hm : markerFound d
      · simp [processItem, itemOutcomeSkip, hm]
      · cases ex
        · simp [processItem, itemOutcomeSkip, hm]
        · simp [processItem, itemOutcomeSkip, hm]

theorem list_split_at_get {α : Type} (rs : List α) (k : Nat)
    (h : k < rs.length) :
    rs = rs.take k ++ rs.get ⟨k, h⟩ :: rs.drop (k + 1) := by
  conv_lhs => rw [← List.take_append_drop k rs]
  congr 1
  have := @List.cons_getElem_drop_succ _ rs k h
  simp only [List.get_eq_getElem]
  exact this.symm

theorem filterMap_split {α β : Type} (f : α → Option β) (rs : List α)
    (k : Nat) (h : k < rs.length) :
    rs.filterMap f = (rs.take k).filterMap f ++
      ((f (rs.get ⟨k, h⟩)).toList ++ (rs.drop (k + 1)).filterMap f) := by
  conv_lhs => rw [list_split_at_get rs k h]
  rw [List.filterMap_append]
  congr 1
  cases hfa : f (rs.get ⟨k, h⟩) with
  | none => rw [List.filterMap_cons_none hfa]; rfl
  | some b => rw [List.filterMap_cons_some hfa]; rfl

theorem mainRun_products (rs : List ItemRun) :
    (mainRun rs).products = rs.filterMap itemOutcomeProd := by
  simpa [mainRun] using runItems_products rs ⟨[], []⟩

theorem mainRun_skipped (rs : List ItemRun) :
    (mainRun rs).skipped = rs.filterMap itemOutcomeSkip := by
  simpa [mainRun] using runItems_skipped rs ⟨[], []⟩

theorem itemOutcome_of_raises (r : ItemRun) (h : itemRaises r) :
    itemOutcomeProd r = none ∧ itemOutcomeSkip r = none := by
  rcases r with ⟨c, u, f⟩
  cases f with
  | raiseEarly => exact ⟨rfl, rfl⟩
  | page d ex =>
    obtain ⟨hex, hm⟩ := h
    constructor
    · simp [itemOutcomeProd, hm, hex]
    · simp [itemOutcomeSkip, hm]

/-! ### Claim C1 -/

/-- C1: per-item isolation in the Detail Extractor.  If processing item `k`
raises an exception (during navigation, waiting, parsing, or extraction),
the run's outputs are exactly those of the run on the input with item `k`
removed: the item is dropped from the successful output, is not added to the
skipped output (the marker cannot have matched before an extraction-time
exception, since a marker match skips extraction), and items `k+1..n` are
still attempted, their results appearing in the output. -/
theorem c1_per_item_isolation (rs : List ItemRun) (k : Nat)
    (h : k < rs.length) (hr : itemRaises (rs.get ⟨k, h⟩)) :
    (mainRun rs).products = (mainRun (rs.eraseIdx k)).products ∧
    (mainRun rs).skipped = (mainRun (rs.eraseIdx k)).skipped := by
  have herase : rs.eraseIdx k = rs.take k ++ rs.drop (k + 1) :=
    List.eraseIdx_eq_take_drop_succ rs k
  have hout := itemOutcome_of_raises _ hr
  constructor
  · rw [mainRun_products, mainRun_products, herase, List.filterMap_append,
      filterMap_split itemOutcomeProd rs k h, hout.1]
    rfl
  · rw [mainRun_skipped, mainRun_skipped, herase, List.filterMap_append,
      filterMap_split itemOutcomeSkip rs k h, hout.2]
    rfl

/-- Witness for C1: on a concrete three-item input whose middle item raises,
the outputs equal those of the two-item input without it. -/
theorem c1_per_item_isolation_witness :
    (mainRun itemsIso).products = (mainRun (itemsIso.eraseIdx 1)).products ∧
    (mainRun itemsIso).skipped = (mainRun (itemsIso.eraseIdx 1)).skipped :=
  c1_per_item_isolation itemsIso 1 (by decide) trivial

/-! ### Claim C10 -/

/-- C10: output disjointness and multiplicity.  Each input item contributes
at most one row across the two outputs: the successful output is exactly the
in-order image of the per-item successful outcome, the skipped output is
exactly the in-order image of the per-item skipped outcome, and no item has
both outcomes (an item with the marker is never extracted, an item that
raises contributes to neither). -/
theorem c10_output_disjointness (rs : List ItemRun) :
    (mainRun rs).products = rs.filterMap itemOutcomeProd ∧
    (mainRun rs).skipped = rs.filterMap itemOutcomeSkip ∧
    ∀ r : ItemRun, itemOutcomeProd r = none ∨ itemOutcomeSkip r = none := by
  refine ⟨mainRun_products rs, mainRun_skipped rs, ?_⟩
  intro r
  rcases r with ⟨c, u, f⟩
  cases f with
  | raiseEarly => exact Or.inl rfl
  | page d ex =>
    by_cases hm : markerFound d
    · exact Or.inl (by simp [itemOutcomeProd, hm])
    · exact Or.inr (by simp [itemOutcomeSkip, hm])

/-! ### Claim C3 -/

/-- C3: unavailability precedence.  For an item whose rendered page contains
the marker string, the (category, URL) record is appended to the skipped
output — at the item's position, regardless of the extraction flag `ex` and
of whatever name/brand/ingredients elements the page `d` contains — and the
successful output is exactly that of the input without this item: the marker
check precedes any field extraction. -/
theorem c3_unavailability_precedence (rs : List ItemRun) (k : Nat)
    (h : k < rs.length) (d : Dom) (ex : Bool)
    (hf : (rs.get ⟨k, h⟩).fetch = Fetch.page d ex)
    (hm : markerFound d = true) :
    (mainRun rs).skipped =
      (rs.take k).filterMap itemOutcomeSkip ++
        SkipRecord.mk (rs.get ⟨k, h⟩).category (rs.get ⟨k, h⟩).url ::
          (rs.drop (k + 1)).filterMap itemOutcomeSkip ∧
    (mainRun rs).products = (rs.eraseIdx k).filterMap itemOutcomeProd := by
  have hskip : itemOutcomeSkip (rs.get ⟨k, h⟩) =
      some ⟨(rs.get ⟨k, h⟩).category, (rs.get ⟨k, h⟩).url⟩ := by
    unfold itemOutcomeSkip
    rw [hf]
    simp [hm]
  have hprod : itemOutcomeProd (rs.get ⟨k, h⟩) = none := by
    unfold itemOutcomeProd
    rw [hf]
    simp [hm]
  constructor
  · rw [mainRun_skipped, filterMap_split itemOutcomeSkip rs k h, hskip]
    rfl
  · rw [mainRun_products, List.eraseIdx_eq_take_drop_succ,
      List.filterMap_append, filterMap_split itemOutcomeProd rs k h, hprod]
    rfl

/-- Witness for C3: a concrete page carrying the marker and a name element,
with the extraction flag set (extraction would raise, but is never reached):
the record lands in the skipped output and the successful output is empty. -/
theorem c3_unavailability_precedence_witness :
    (mainRun itemsUnavailable).skipped = [SkipRecord.mk "face-mask" "u4"] ∧
    (mainRun itemsUnavailable).products = [] := by
  obtain ⟨h1, h2⟩ := c3_unavailability_precedence itemsUnavailable 0
    (by decide) pageUnavailable true rfl (by decide)
  exact ⟨by simpa [itemsUnavailable] using h1,
    by simpa [itemsUnavailable] using h2⟩

/-! ### Claim C8 -/

/-- C8: partial extraction.  For an item whose page has no marker and whose
extraction completes, the extracted record is appended to the successful
output; each of the three fields independently defaults to `none` when its
source element is not found, the name field is populated from the name
element when present, and the skipped output is untouched by this item. -/
theorem c8_partial_extraction (rs : List ItemRun) (k : Nat)
    (h : k < rs.length) (d : Dom)
    (hf : (rs.get ⟨k, h⟩).fetch = Fetch.page d false)
    (hm : markerFound d = false) :
    extract (rs.get ⟨k, h⟩).category (rs.get ⟨k, h⟩).url d ∈
      (mainRun rs).products ∧
    (findTagAttr "span" "data-at" "product_name" d = none →
      (extract (rs.get ⟨k, h⟩).category (rs.get ⟨k, h⟩).url d).name = none) ∧
    (findTagAttr "a" "data-at" "brand_name" d = none →
      (extract (rs.get ⟨k, h⟩).category (rs.get ⟨k, h⟩).url d).brand = none) ∧
    (findTagAttr "div" "id" "ingredients" d = none →
      (extract (rs.get ⟨k, h⟩).category (rs.get ⟨k, h⟩).url d).ingredients
        = none) ∧
    (∀ t, findTagAttr "span" "data-at" "product_name" d = some t →
      (extract (rs.get ⟨k, h⟩).category (rs.get ⟨k, h⟩).url d).name
        = some (strTrim (getText t))) ∧
    (mainRun rs).skipped = (rs.eraseIdx k).filterMap itemOutcomeSkip := by
  have hprod : itemOutcomeProd (rs.get ⟨k, h⟩) =
      some (extract (rs.get ⟨k, h⟩).category (rs.get ⟨k, h⟩).url d) := by
    unfold itemOutcomeProd
    rw [hf]
    simp [hm]
  have hskip : itemOutcomeSkip (rs.get ⟨k, h⟩) = none := by
    unfold itemOutcomeSkip
    rw [hf]
    simp [hm]
  refine ⟨?_, ?_, ?_, ?_, ?_, ?_⟩
  · rw [mainRun_products]
    exact List.mem_filterMap.2 ⟨rs.get ⟨k, h⟩, List.get_mem rs k h, hprod⟩
  · intro hn; simp [extract, hn]
  · intro hb; simp [extract, hb]
  · intro hi; simp [extract, hi]
  · intro t ht; simp [extract, ht]
  · rw [mainRun_skipped, List.eraseIdx_eq_take_drop_succ,
      List.filterMap_append, filterMap_split itemOutcomeSkip rs k h, hskip]
    rfl

/-- Witness for C8: a concrete page with a name element and no brand
element; the record is in the successful output with a populated name and an
absent brand, and nothing is skipped. -/
theorem c8_partial_extraction_witness :
    extract "face-mask" "u9" pagePartial ∈ (mainRun itemsPartial).products ∧
    (extract "face-mask" "u9" pagePartial).name = some "Nice Cream" ∧
    (extract "face-mask" "u9" pagePartial).brand = none ∧
    (mainRun itemsPartial).skipped = [] := by
  obtain ⟨h1, _, _, _, _, h6⟩ := c8_partial_extraction itemsPartial 0
    (by decide) pagePartial rfl (by decide)
  exact ⟨h1, by decide, by decide, by simpa [itemsPartial] using h6⟩

/-! ### Claim C9 -/

/-- C9: empty-URL filtering.  The sequence of URLs the loop navigates to is
exactly the sequence of non-missing URLs of the input file, in order — a row
whose URL cell is empty (pandas NaN, `none` here) is dropped before the loop
starts and never navigated — and every record in either output carries one
of those URLs. -/
theorem c9_empty_url_filter (rows : List InRow) (fetch : Nat → Fetch) :
    (attachRuns rows fetch).map ItemRun.url = rows.filterMap InRow.url ∧
    (∀ rec ∈ (mainRun (attachRuns rows fetch)).products,
      rec.url ∈ rows.filterMap InRow.url) ∧
    (∀ rec ∈ (mainRun (attachRuns rows fetch)).skipped,
      rec.url ∈ rows.filterMap InRow.url) := by
  have hfromUrl : ∀ (l : List (String × String)) (i : Nat),
      (attachRunsFrom fetch i l).map ItemRun.url = l.map Prod.snd := by
    intro l
    induction l with
    | nil => intro i; rfl
    | cons p rest ih =>
      intro i
      rcases p with ⟨c, u⟩
      simp [attachRunsFrom, ih]
  have hsnd : (inputItems rows).map Prod.snd = rows.filterMap InRow.url := by
    induction rows with
    | nil => rfl
    | cons r rest ih =>
      rcases r with ⟨c, u⟩
      cases u with
      | none => simpa [inputItems, List.filterMap_cons] using ih
      | some v => simpa [inputItems, List.filterMap_cons] using ih
  have hurls : (attachRuns rows fetch).map ItemRun.url
      = rows.filterMap InRow.url := by
    rw [attachRuns, hfromUrl, hsnd]
  refine ⟨hurls, ?_, ?_⟩
  · intro rec hrec
    rw [mainRun_products] at hrec
    obtain ⟨r, hr, hout⟩ := List.mem_filterMap.1 hrec
    have hurl : rec.url = r.url := by
      rcases r with ⟨c, u, f⟩
      cases f with
      | raiseEarly => simp [itemOutcomeProd] at hout
      | page d ex =>
        by_cases hm : markerFound d
        · simp [itemOutcomeProd, hm] at hout
        · cases ex
          · simp [itemOutcomeProd, hm] at hout
            rw [← hout]
            simp [extract]
          · simp [itemOutcomeProd, hm] at hout
    rw [hurl, ← hurls]
    exact List.mem_map.2 ⟨r, hr, rfl⟩
  · intro rec hrec
    rw [mainRun_skipped] at hrec
    obtain ⟨r, hr, hout⟩ := List.mem_filterMap.1 hrec
    have hurl : rec.url = r.url := by
      rcases r with ⟨c, u, f⟩
      cases f with
      | raiseEarly => simp [itemOutcomeSkip] at hout
      | page d ex =>
        by_cases hm : markerFound d
        · simp [itemOutcomeSkip, hm] at hout
          rw [← hout]
        · simp [itemOutcomeSkip, hm] at hout
    rw [hurl, ← hurls]
    exact List.mem_map.2 ⟨r, hr, rfl⟩

/-- Witness for C9: a concrete input whose middle row has an empty URL cell;
the navigated URLs are exactly the two present ones. -/
theorem c9_empty_url_filter_witness :
    (attachRuns rowsW fetchW).map ItemRun.url = rowsW.filterMap InRow.url ∧
    (∀ rec ∈ (mainRun (attachRuns rowsW fetchW)).products,
      rec.url ∈ rowsW.filterMap InRow.url) ∧
    (∀ rec ∈ (mainRun (attachRuns rowsW fetchW)).skipped,
      rec.url ∈ rowsW.filterMap InRow.url) :=
  c9_empty_url_filter rowsW fetchW

/-! ### Claim C2

The claim asserts a protected cleanup block around the iteration loop of
*both* pipelines.  This is true of the Detail Extractor
(`product_scr.py:63-124`, `try ... finally: driver.quit()`) but false of the
Link Collector: `sephora_scr.py` has no `try` at all — `driver.quit()` at
line 107 is only reached when the category loop at lines 104-105 completes
normally. -/

/-- Counterexample to C2 as stated: a Link Collector run in which the first
category scrape raises ends with an escaping exception and without
`driver.quit()` having been called. -/
theorem c2_session_release_counterexample :
    (collectorScript (fun _ _ => Except.error ()) ["cleanser"]).raised
        = true ∧
    (collectorScript (fun _ _ => Except.error ()) ["cleanser"]).quitCalled
        = false :=
  ⟨rfl, rfl⟩

/-- C2, amended: the Detail Extractor releases the browser session on every
exit path (its loop sits in a `try`/`finally` whose `finally` runs
`driver.quit()`), while the Link Collector releases it exactly when the
category loop completes without an escaping exception — there is no
protected cleanup block in `sephora_scr.py`. -/
theorem c2_session_release_amended :
    (∀ (rs : List ItemRun) (escape : Option Nat),
      (extractorScript rs escape).quitCalled = true) ∧
    (∀ (catStep : String → List LinkRow → Except Unit (List LinkRow))
        (cats : List String),
      (collectorScript catStep cats).quitCalled
        = !(collectorScript catStep cats).raised) := by
  constructor
  · intro rs escape
    cases escape <;> rfl
  · intro catStep cats
    cases hx : collectorLoop catStep cats [] with
    | error e => simp [collectorScript, hx]
    | ok rows => simp [collectorScript, hx]

/-! ### Helper lemmas: the scroll loop -/

theorem scrollRun_eq_of_streak_lt (counts : Nat → Nat) :
    ∀ n, (∀ j, j < n → streak counts j < 7) →
    scrollRun counts n = ⟨prevAt counts n, streak counts n, n⟩ := by
  intro n
  induction n with
  | zero => intro _; rfl
  | succ n ih =>
    intro hlt
    have hn : scrollRun counts n = ⟨prevAt counts n, streak counts n, n⟩ :=
      ih (fun j hj => hlt j (Nat.lt_succ_of_lt hj))
    have hs : streak counts n < 7 := hlt n (Nat.lt_succ_self n)
    have step : scrollRun counts (n + 1)
        = scrollStep counts ⟨prevAt counts n, streak counts n, n⟩ := by
      rw [scrollRun, hn]
      simp [hs]
    rw [step, scrollStep]
    cases n with
    | zero =>
      have hne : ((counts 0 : Int)) ≠ (-1 : Int) := by
        have : (0 : Int) ≤ (counts 0 : Int) := Int.natCast_nonneg _
        omega
      simp [prevAt, streak, hne]
    | succ m =>
      by_cases hc : counts (m + 1) = counts m
      · have hc' : ((counts (m + 1) : Int)) = ((counts m : Int)) := by
          exact_mod_cast hc
        have e2 : m + 1 + 1 = m + 2 := rfl
        rw [e2, streak]
        simp [prevAt, hc, hc']
      · have hc' : ((counts (m + 1) : Int)) ≠ ((counts m : Int)) := by
          exact_mod_cast hc
        have e2 : m + 1 + 1 = m + 2 := rfl
        rw [e2, streak]
        simp [prevAt, hc, hc']

theorem scrollRun_freeze (counts : Nat → Nat) (n : Nat)
    (h : ¬ (scrollRun counts n).attempts < 7) :
    ∀ m, n ≤ m → scrollRun counts m = scrollRun counts n := by
  intro m hm
  induction m with
  | zero =>
    have h0 : n = 0 := Nat.le_zero.mp hm
    subst h0
    rfl
  | succ m ih =>
    rcases Nat.lt_or_ge n (m + 1) with hlt | hge
    · have hm' := ih (Nat.lt_succ_iff.mp hlt)
      rw [scrollRun, hm']
      simp [h]
    · have he : n = m + 1 := Nat.le_antisymm hm hge
      rw [he]

theorem streak_grows (counts : Nat → Nat) (N : Nat)
    (hstab : ∀ i, N ≤ i → counts i = counts N) :
    ∀ j, j ≤ 7 → j ≤ streak counts (N + 1 + j) := by
  intro j
  induction j with
  | zero => intro _; exact Nat.zero_le _
  | succ j ih =>
    intro hj7
    have hj : j ≤ streak counts (N + 1 + j) := ih (Nat.le_of_succ_le hj7)
    have harith : N + 1 + (j + 1) = (N + j) + 2 := by omega
    rw [harith, streak]
    have hc : counts (N + j + 1) = counts (N + j) := by
      rw [hstab (N + j + 1) (by omega), hstab (N + j) (by omega)]
    rw [if_pos hc]
    have he : N + 1 + j = N + j + 1 := by omega
    rw [he] at hj
    omega

theorem streak_pred (counts : Nat → Nat) (m : Nat)
    (h : 1 ≤ streak counts (m + 2)) :
    streak counts (m + 2) = streak counts (m + 1) + 1 := by
  rw [streak] at h ⊢
  by_cases hc : counts (m + 1) = counts m
  · rw [if_pos hc]
  · rw [if_neg hc] at h
    omega

theorem streak_exit (counts : Nat → Nat) (N : Nat)
    (hstab : ∀ i, N ≤ i → counts i = counts N) :
    ∃ k, streak counts k = 7 ∧ ∀ j, j < k → streak counts j < 7 := by
  have h7 : 7 ≤ streak counts (N + 1 + 7) :=
    streak_grows counts N hstab 7 le_rfl
  have hex : ∃ k, 7 ≤ streak counts k := ⟨N + 1 + 7, h7⟩
  have hfound : ∃ k, (7 ≤ streak counts k) ∧ ∀ j, j < k → streak counts j < 7 :=
    ⟨Nat.find hex, Nat.find_spec hex,
      fun j hj => Nat.lt_of_not_le (Nat.find_min hex hj)⟩
  obtain ⟨k, hk, hmin⟩ := hfound
  refine ⟨k, ?_, hmin⟩
  rcases k with _ | k1
  · simp [streak] at hk
  rcases k1 with _ | m
  · simp [streak] at hk
  · have e2 : m + 1 + 1 = m + 2 := rfl
    rw [e2] at hk hmin ⊢
    have hpr := streak_pred counts m (by omega)
    have hlt : streak counts (m + 1) < 7 := hmin (m + 1) (by omega)
    omega

theorem streak_imp_eq (counts : Nat → Nat) (m : Nat) :
    ∀ i, m - streak counts m ≤ i → i < m →
      1 ≤ i ∧ counts i = counts (i - 1) := by
  induction m using Nat.strong_induction_on with
  | _ m ih =>
    rcases m with _ | m
    · intro i h1 h2
      omega
    rcases m with _ | m
    · intro i h1 h2
      simp [streak] at h1
      omega
    · intro i h1 h2
      have e2 : m + 1 + 1 = m + 2 := rfl
      rw [e2] at h1 h2
      by_cases hc : counts (m + 1) = counts m
      · have hs : streak counts (m + 2) = streak counts (m + 1) + 1 := by
          rw [streak, if_pos hc]
        rcases Nat.lt_or_ge i (m + 1) with hlt | hge
        · have h1' : (m + 1) - streak counts (m + 1) ≤ i := by
            rw [hs] at h1
            omega
          exact ih (m + 1) (by omega) i h1' hlt
        · have hi : i = m + 1 := by omega
          subst hi
          exact ⟨by omega, by simpa using hc⟩
      · have hs : streak counts (m + 2) = 0 := by rw [streak, if_neg hc]
        rw [hs] at h1
        omega

theorem eq_imp_streak_ge (counts : Nat → Nat) (j : Nat) (hj : 8 ≤ j)
    (heq : ∀ i, j - 7 ≤ i → i < j → counts i = counts (i - 1)) :
    7 ≤ streak counts j := by
  have key : ∀ t, t ≤ 7 → t ≤ streak counts (j - 7 + t) := by
    intro t
    induction t with
    | zero => intro _; exact Nat.zero_le _
    | succ t iht =>
      intro ht7
      have hpr : t ≤ streak counts (j - 7 + t) := iht (by omega)
      have hform : j - 7 + (t + 1) = (j - 7 + t - 1) + 2 := by omega
      rw [hform, streak]
      have hi1 : j - 7 + t - 1 + 1 = j - 7 + t := by omega
      rw [hi1]
      have hc : counts (j - 7 + t) = counts (j - 7 + t - 1) :=
        heq (j - 7 + t) (by omega) (by omega)
      rw [if_pos hc]
      omega
  have hfin := key 7 le_rfl
  have hj7 : j - 7 + 7 = j := by omega
  rwa [hj7] at hfin

/-! ### Claim C6 -/

/-- C6: scroll-stability condition.  For a block-count sequence that
stabilises, the scroll loop exits after some number `k` of reads such that:
the exit state has `scroll_attempts = 7` after exactly `k` reads; before
that the loop is still running with fewer than 7 unchanged reads; the last 7
reads were each equal to their predecessor (so extraction begins exactly
once 7 consecutive unchanged reads have occurred); no earlier point had 7
consecutive unchanged reads; the loop stays exited; and any changed count
resets the unchanged counter to zero. -/
theorem c6_scroll_stability (counts : Nat → Nat) (N : Nat)
    (hstab : ∀ i, N ≤ i → counts i = counts N) :
    ∃ k,
      ((scrollRun counts k).attempts = 7 ∧ (scrollRun counts k).reads = k) ∧
      (∀ j, j < k →
        (scrollRun counts j).attempts < 7 ∧ (scrollRun counts j).reads = j) ∧
      (8 ≤ k ∧ ∀ i, k - 7 ≤ i → i < k → 1 ≤ i ∧ counts i = counts (i - 1)) ∧
      (∀ j, j < k →
        ¬(8 ≤ j ∧ ∀ i, j - 7 ≤ i → i < j → counts i = counts (i - 1))) ∧
      (∀ m, k ≤ m → scrollRun counts m = scrollRun counts k) ∧
      (∀ s : ScrollSt, ((counts s.reads : Int) ≠ s.previous) →
        (scrollStep counts s).attempts = 0) := by
  obtain ⟨k, hk7, hmin⟩ := streak_exit counts N hstab
  have hchar : scrollRun counts k = ⟨prevAt counts k, streak counts k, k⟩ :=
    scrollRun_eq_of_streak_lt counts k hmin
  have hattempts : (scrollRun counts k).attempts = 7 := by
    rw [hchar]
    exact hk7
  have hk8 : 8 ≤ k := by
    by_contra hlt
    push_neg at hlt
    have hk2 : 2 ≤ k := by
      rcases k with _ | k1
      · simp [streak] at hk7
      rcases k1 with _ | m
      · simp [streak] at hk7
      · omega
    have hz := streak_imp_eq counts k 0 (by rw [hk7]; omega) (by omega)
    exact absurd hz.1 (by omega)
  refine ⟨k, ⟨hattempts, ?_⟩, ?_, ⟨hk8, ?_⟩, ?_, ?_, ?_⟩
  · rw [hchar]
  · intro j hj
    have hcj : scrollRun counts j = ⟨prevAt counts j, streak counts j, j⟩ :=
      scrollRun_eq_of_streak_lt counts j (fun i hi => hmin i (hi.trans hj))
    rw [hcj]
    exact ⟨hmin j hj, rfl⟩
  · intro i h1 h2
    exact streak_imp_eq counts k i (by rw [hk7]; exact h1) h2
  · intro j hj hand
    have hge := eq_imp_streak_ge counts j hand.1 hand.2
    exact absurd (hmin j hj) (by omega)
  · intro m hm
    exact scrollRun_freeze counts k (by rw [hattempts]; omega) m hm
  · intro s hne
    simp [scrollStep, hne]

/-- Witness for C6: the constant count sequence 5, 5, 5, … stabilises from
the start; the theorem applies and yields the exit point. -/
theorem c6_scroll_stability_witness :
    (∀ i : Nat, 0 ≤ i → (fun _ : Nat => 5) i = (fun _ : Nat => 5) 0) ∧
    (∃ k,
      ((scrollRun (fun _ => 5) k).attempts = 7 ∧
        (scrollRun (fun _ => 5) k).reads = k) ∧
      (∀ j, j < k →
        (scrollRun (fun _ => 5) j).attempts < 7 ∧
          (scrollRun (fun _ => 5) j).reads = j) ∧
      (8 ≤ k ∧ ∀ i, k - 7 ≤ i → i < k →
        1 ≤ i ∧ (fun _ : Nat => 5) i = (fun _ : Nat => 5) (i - 1)) ∧
      (∀ j, j < k → ¬(8 ≤ j ∧ ∀ i, j - 7 ≤ i → i < j →
        (fun _ : Nat => 5) i = (fun _ : Nat => 5) (i - 1))) ∧
      (∀ m, k ≤ m → scrollRun (fun _ => 5) m = scrollRun (fun _ => 5) k) ∧
      (∀ s : ScrollSt, (((fun _ : Nat => 5) s.reads : Int) ≠ s.previous) →
        (scrollStep (fun _ => 5) s).attempts = 0)) :=
  ⟨fun _ _ => rfl, c6_scroll_stability (fun _ => 5) 0 (fun _ _ => rfl)⟩

/-! ### Helper lemmas: pagination -/

theorem scrapeFrom_zero_seg (blocks : Blocks) (category : String)
    (fuel p : Nat)
    (hzero : ∃ r, finalRead blocks fuel p = some r ∧ blocks p r = []) :
    ∀ (rem a : Nat) (st : CatState) (visited : List Nat), a ≤ p →
    p < a + rem →
    (∀ q, a ≤ q → q < p →
      ∃ r, finalRead blocks fuel q = some r ∧ blocks q r ≠ []) →
    ∃ st2,
      scrapeFrom blocks category fuel a rem st visited
        = some (st2, visited ++ List.range' a (p + 1 - a)) ∧
      scrapeFrom blocks category fuel a (p - a) st visited
        = some (st2, visited ++ List.range' a (p - a)) := by
  intro rem
  induction rem with
  | zero =>
    intro a st visited ha hlt _
    omega
  | succ rem ih =>
    intro a st visited ha hlt hbefore
    rcases Nat.eq_or_lt_of_le ha with heq | hlt2
    · subst heq
      obtain ⟨r, hfr, hb⟩ := hzero
      refine ⟨st, ?_, ?_⟩
      · rw [scrapeFrom, hfr]
        have e1 : a + 1 - a = 1 := by omega
        simp [hb, e1]
      · have e0 : a - a = 0 := by omega
        rw [e0]
        simp [scrapeFrom]
    · obtain ⟨r, hfr, hnb⟩ := hbefore a le_rfl hlt2
      have hlen : ¬ ((blocks a r).length = 0) :=
        fun hl => hnb (List.length_eq_zero.mp hl)
      obtain ⟨st2, h1, h2⟩ := ih (a + 1)
        (extractBlocks category (blocks a r) st) (visited ++ [a])
        (by omega) (by omega) (fun q hq1 hq2 => hbefore q (by omega) hq2)
      refine ⟨st2, ?_, ?_⟩
      · rw [scrapeFrom, hfr]
        simp only [hlen, if_false, ite_false]
        rw [h1]
        have e1 : p + 1 - a = (p + 1 - (a + 1)) + 1 := by omega
        rw [e1, List.range'_succ]
        simp [List.append_assoc]
      · have e2 : p - a = (p - (a + 1)) + 1 := by omega
        rw [e2, scrapeFrom, hfr]
        simp only [hlen, if_false, ite_false]
        rw [h2]
        rw [List.range'_succ]
        simp [List.append_assoc]

/-! ### Claim C7 -/

/-- C7: pagination bounds and early stop.  If listing pages `1..p-1` all
stabilise with a nonzero block count and page `p ≤ maxPages` stabilises with
zero blocks, the page loop visits exactly the pages `1, 2, …, p` in
increasing order (in particular page `p + 1` is never requested), and the
final state equals that of a run capped at `p - 1` pages — no links are
extracted from page `p`. -/
theorem c7_pagination_stop (blocks : Blocks) (category : String)
    (rows0 : List LinkRow) (maxPages fuel p : Nat)
    (hp : 1 ≤ p) (hple : p ≤ maxPages)
    (hzero : ∃ r, finalRead blocks fuel p = some r ∧ blocks p r = [])
    (hbefore : ∀ q, 1 ≤ q → q < p →
      ∃ r, finalRead blocks fuel q = some r ∧ blocks q r ≠ []) :
    ∃ st : CatState,
      scrapeFrom blocks category fuel 1 maxPages ⟨[], rows0⟩ []
        = some (st, List.range' 1 p) ∧
      (p + 1) ∉ List.range' 1 p ∧
      scrapeFrom blocks category fuel 1 (p - 1) ⟨[], rows0⟩ []
        = some (st, List.range' 1 (p - 1)) := by
  obtain ⟨st2, h1, h2⟩ := scrapeFrom_zero_seg blocks category fuel p hzero
    maxPages 1 ⟨[], rows0⟩ [] hp (by omega)
    (fun q hq1 hq2 => hbefore q hq1 hq2)
  refine ⟨st2, ?_, ?_, ?_⟩
  · simpa [show p + 1 - 1 = p from by omega] using h1
  · rw [List.mem_range'_1]
    omega
  · simpa using h2

/-- Witness for C7: with pages 1 and 2 nonempty and page 3 empty under a
cap of 5, exactly pages 1-3 are visited, page 4 is not, and the result
matches the run capped at 2 pages. -/
theorem c7_pagination_stop_witness :
    ∃ st : CatState,
      scrapeFrom wBlocks "cleanser" 10 1 5 ⟨[], []⟩ []
        = some (st, List.range' 1 3) ∧
      (4 : Nat) ∉ List.range' 1 3 ∧
      scrapeFrom wBlocks "cleanser" 10 1 2 ⟨[], []⟩ []
        = some (st, List.range' 1 2) := by
  have h := c7_pagination_stop wBlocks "cleanser" [] 5 10 3 (by decide)
    (by decide) ⟨7, by decide, by decide⟩
    (by
      intro q h1 h2
      interval_cases q
      · exact ⟨7, by decide, by decide⟩
      · exact ⟨7, by decide, by decide⟩)
  simpa using h

/-! ### Helper lemmas: deduplication invariant of one category scrape -/

theorem addHref_inv (category : String) (rows0 : List LinkRow)
    (st : CatState) (h : CatInv category rows0 st) (u : String) :
    CatInv category rows0 (addHref category st u) := by
  obtain ⟨new, hrows, hnd, hmem⟩ := h
  unfold addHref
  by_cases hc : u ≠ "" ∧ u ∉ st.seen
  · rw [if_pos hc]
    refine ⟨new ++ [⟨category, u⟩], ?_, ?_, ?_⟩
    · simp [hrows]
    · rw [List.map_append, List.nodup_append]
      refine ⟨hnd, by simp, ?_⟩
      intro x hx hx'
      simp at hx'
      subst hx'
      obtain ⟨r, hr, hru⟩ := List.mem_map.1 hx
      exact hc.2 (hru ▸ (hmem r hr).2)
    · intro r hr
      rcases List.mem_append.1 hr with hr1 | hr2
      · obtain ⟨hcat, hseen⟩ := hmem r hr1
        exact ⟨hcat, by simp [hseen]⟩
      · simp at hr2
        subst hr2
        exact ⟨rfl, by simp⟩
  · rw [if_neg hc]
    exact ⟨new, hrows, hnd, hmem⟩

theorem foldl_addHref_inv (category : String) (rows0 : List LinkRow) :
    ∀ (hs : List String) (st : CatState), CatInv category rows0 st →
    CatInv category rows0 (hs.foldl (addHref category) st) := by
  intro hs
  induction hs with
  | nil => intro st h; exact h
  | cons u us ih =>
    intro st h
    exact ih _ (addHref_inv category rows0 st h u)

theorem extractBlocks_inv (category : String) (rows0 : List LinkRow) :
    ∀ (bs : List Block) (st : CatState), CatInv category rows0 st →
    CatInv category rows0 (extractBlocks category bs st) := by
  intro bs
  induction bs with
  | nil => intro st h; exact h
  | cons b rest ih =>
    intro st h
    have he : extractBlocks category (b :: rest) st
        = extractBlocks category rest
            ((blockHrefs b).foldl (addHref category) st) := rfl
    rw [he]
    exact ih _ (foldl_addHref_inv category rows0 (blockHrefs b) st h)

theorem scrapeFrom_inv (blocks : Blocks) (category : String) (fuel : Nat)
    (rows0 : List LinkRow) :
    ∀ (rem a : Nat) (st : CatState) (visited : List Nat)
      (st2 : CatState) (v2 : List Nat),
    CatInv category rows0 st →
    scrapeFrom blocks category fuel a rem st visited = some (st2, v2) →
    CatInv category rows0 st2 := by
  intro rem
  induction rem with
  | zero =>
    intro a st visited st2 v2 hinv hrun
    simp [scrapeFrom] at hrun
    exact hrun.1 ▸ hinv
  | succ rem ih =>
    intro a st visited st2 v2 hinv hrun
    rw [scrapeFrom] at hrun
    cases hfr : finalRead blocks fuel a with
    | none =>
      rw [hfr] at hrun
      simp at hrun
    | some r =>
      rw [hfr] at hrun
      by_cases hl : (blocks a r).length = 0
      · simp [hl] at hrun
        exact hrun.1 ▸ hinv
      · simp only [hl, if_false, ite_false] at hrun
        exact ih (a + 1) _ _ st2 v2
          (extractBlocks_inv category rows0 _ st hinv) hrun

theorem scrapeAll_new (blocks : Blocks) (category : String)
    (rows0 : List LinkRow) (maxPages fuel : Nat) (rows : List LinkRow)
    (visited : List Nat)
    (hrun : scrapeAllPaginated blocks category rows0 maxPages fuel
      = some (rows, visited)) :
    ∃ new, rows = rows0 ++ new ∧ (new.map LinkRow.url).Nodup ∧
      ∀ r ∈ new, r.category = category := by
  unfold scrapeAllPaginated at hrun
  cases hsf : scrapeFrom blocks category fuel 1 maxPages ⟨[], rows0⟩ [] with
  | none =>
    rw [hsf] at hrun
    simp at hrun
  | some pr =>
    rw [hsf] at hrun
    simp at hrun
    have hinv0 : CatInv category rows0 ⟨[], rows0⟩ :=
      ⟨[], by simp, by simp, by simp⟩
    have hinv := scrapeFrom_inv blocks category fuel rows0 maxPages 1
      ⟨[], rows0⟩ [] pr.1 pr.2 hinv0 (by rw [hsf])
    obtain ⟨new, h1, h2, h3⟩ := hinv
    exact ⟨new, by rw [← hrun.1, h1], h2, fun r hr => (h3 r hr).1⟩

/-! ### Claim C4

The claim asserts that the set of already-seen URLs spans the whole crawl.
In the code `all_hrefs = set()` is created afresh inside each call of
`scrape_all_paginated_products` (`sephora_scr.py:44`), so deduplication is
scoped to one category's scrape: a URL discovered under one category is
appended again when rediscovered under a later category. -/

/-- Counterexample to C4 as stated: two categories whose listing pages show
the same product URL; the run appends that URL twice, once per category —
the seen-set does not survive from the first category to the second. -/
theorem c4_dedup_scope_counterexample :
    runCategories (fun _ => wBlocks) 2 10 ["cleanser", "face-mask"] []
      = some [LinkRow.mk "cleanser" "s/product/1",
              LinkRow.mk "face-mask" "s/product/1"] := by decide

/-- C4, amended: the set of already-seen URLs is scoped to a single
invocation of the paginated scraper (one category, all of its pages): within
one call the rows appended beyond the incoming table carry that category and
pairwise distinct URLs — while a URL discovered under one category is
appended again when rediscovered under a later category, as the
counterexample shows. -/
theorem c4_dedup_scope_amended (blocks : Blocks) (category : String)
    (rows0 : List LinkRow) (maxPages fuel : Nat) (rows : List LinkRow)
    (visited : List Nat)
    (hrun : scrapeAllPaginated blocks category rows0 maxPages fuel
      = some (rows, visited)) :
    ∃ new, rows = rows0 ++ new ∧ (new.map LinkRow.url).Nodup ∧
      ∀ r ∈ new, r.category = category :=
  scrapeAll_new blocks category rows0 maxPages fuel rows visited hrun

/-- Witness for C4 (amended): one concrete category scrape whose pages 1
and 2 both show the same URL appends it exactly once. -/
theorem c4_dedup_scope_amended_witness :
    ∃ new, [LinkRow.mk "cleanser" "s/product/1"] = ([] : List LinkRow) ++ new ∧
      (new.map LinkRow.url).Nodup ∧ ∀ r ∈ new, r.category = "cleanser" :=
  c4_dedup_scope_amended wBlocks "cleanser" [] 2 10
    [LinkRow.mk "cleanser" "s/product/1"] [1, 2] (by decide)

/-! ### Claim C5 -/

theorem runCategories_seg (blocksFor : String → Blocks)
    (maxPages fuel : Nat) :
    ∀ (cats : List String) (rows0 rows : List LinkRow),
    runCategories blocksFor maxPages fuel cats rows0 = some rows →
    ∃ new, rows = rows0 ++ new ∧ (∀ r ∈ new, r.category ∈ cats) ∧
      (cats.Nodup → ∀ c u, new.count ⟨c, u⟩ ≤ 1) := by
  intro cats
  induction cats with
  | nil =>
    intro rows0 rows hrun
    simp [runCategories] at hrun
    exact ⟨[], by simp [hrun], by simp, fun _ _ _ => by simp⟩
  | cons c cs ih =>
    intro rows0 rows hrun
    rw [runCategories] at hrun
    cases hsc : scrapeAllPaginated (blocksFor c) c rows0 maxPages fuel with
    | none =>
      rw [hsc] at hrun
      simp at hrun
    | some pr =>
      obtain ⟨rows1, v1⟩ := pr
      rw [hsc] at hrun
      simp only [] at hrun
      obtain ⟨new1, h1a, h1nd, h1cat⟩ :=
        scrapeAll_new (blocksFor c) c rows0 maxPages fuel rows1 v1 hsc
      obtain ⟨new2, h2a, h2cat, h2cnt⟩ := ih rows1 rows hrun
      refine ⟨new1 ++ new2, ?_, ?_, ?_⟩
      · rw [h2a, h1a, List.append_assoc]
      · intro r hr
        rcases List.mem_append.1 hr with hx | hx
        · simp [h1cat r hx]
        · exact List.mem_cons_of_mem c (h2cat r hx)
      · intro hnd c' u
        have hndc : c ∉ cs ∧ cs.Nodup := by
          rw [List.nodup_cons] at hnd
          exact hnd
        rw [List.count_append]
        by_cases hcc : c' = c
        · subst hcc
          have hz : new2.count ⟨c', u⟩ = 0 := by
            rw [List.count_eq_zero]
            intro hmem
            exact hndc.1 (by simpa using h2cat _ hmem)
          have ho : new1.count ⟨c', u⟩ ≤ 1 := by
            calc new1.count ⟨c', u⟩
                ≤ (new1.map LinkRow.url).count u :=
                  List.count_le_count_map new1 LinkRow.url ⟨c', u⟩
              _ ≤ 1 := List.nodup_iff_count_le_one.1 h1nd u
          omega
        · have hz : new1.count ⟨c', u⟩ = 0 := by
            rw [List.count_eq_zero]
            intro hmem
            exact hcc (by simpa using h1cat _ hmem)
          have h2 := h2cnt hndc.2 c' u
          omega

/-- C5: per-category deduplication.  For a run of the category loop over
pairwise distinct categories that completes with output table `rows`, every
(category, URL) row occurs at most once — each unique URL appears at most
once per category, however often its anchor recurred across pages and
scroll iterations of that category's scrape. -/
theorem c5_per_category_dedup (blocksFor : String → Blocks)
    (cats : List String) (maxPages fuel : Nat) (rows : List LinkRow)
    (hnd : cats.Nodup)
    (hrun : runCategories blocksFor maxPages fuel cats [] = some rows) :
    ∀ c u, rows.count (LinkRow.mk c u) ≤ 1 := by
  obtain ⟨new, ha, _, hcnt⟩ :=
    runCategories_seg blocksFor maxPages fuel cats [] rows hrun
  intro c u
  rw [ha]
  simpa using hcnt hnd c u

/-- Witness for C5: the concrete two-category run of the counterexample
input still has every (category, URL) row at most once. -/
theorem c5_per_category_dedup_witness :
    (["cleanser", "face-mask"] : List String).Nodup ∧
    ∀ c u, ([LinkRow.mk "cleanser" "s/product/1",
             LinkRow.mk "face-mask" "s/product/1"] : List LinkRow).count
          ⟨c, u⟩ ≤ 1 :=
  ⟨by decide, c5_per_category_dedup (fun _ => wBlocks)
    ["cleanser", "face-mask"] 2 10
    [LinkRow.mk "cleanser" "s/product/1", LinkRow.mk "face-mask" "s/product/1"]
    (by decide) (by decide)⟩
